import Mathlib

/- Verification of the SkySphere sky-map engine (`src/SkySphere.js`).

   The engine is embedded shallowly over exact real arithmetic: a projected
   point is a record of real coordinates plus an optional opaque payload, the
   per-instance state is a record of the fields `init` assigns on `this`, and
   every numeric routine of the source is transcribed literally (JS
   `Math.sin`/`Math.cos` become `Real.sin`/`Real.cos`). -/

namespace SkySphere

noncomputable section

variable {α : Type}

/-- A projected sky point as built by `generateSkyPoint`: `x`, `y` are screen
coordinates, `z` is the depth proxy, and `data` is the optional caller payload
(`none` exactly when the JS object carries no `data` field). -/
@[ext]
structure SkyPoint (α : Type) where
  x : ℝ
  y : ℝ
  z : ℝ
  data : Option α

/-- A constellation edge as pushed in `init`: two independently owned
projected endpoints. -/
@[ext]
structure StarLine (α : Type) where
  skyPoint1 : SkyPoint α
  skyPoint2 : SkyPoint α

/-- `function dec2rad(dec) { return (dec + 90) * 2 * Math.PI / 360; }` -/
def dec2rad (dec : ℝ) : ℝ :=
  (dec + 90) * 2 * Real.pi / 360

/-- `function ra2rad(ra) { return ra * 2 * Math.PI / 24; }` -/
def ra2rad (ra : ℝ) : ℝ :=
  ra * 2 * Real.pi / 24

/-- `SkySphere.prototype.generateSkyPoint` (lines 162-174), with the
instance fields `this.radius`, `this.containerWidth`, `this.containerHeight`
passed explicitly.  The `data` field is attached exactly when the `data`
argument was supplied (`if (data !== undefined) skyPoint.data = data`). -/
def generateSkyPoint (radius containerWidth containerHeight : ℝ)
    (ra dec : ℝ) (data : Option α) : SkyPoint α :=
  { x := radius * Real.sin dec * Real.cos ra + containerWidth / 2
    y := -radius * Real.sin dec * Real.sin ra + containerHeight / 2
    z := radius * Real.cos dec
    data := data }

/-- The per-instance mutable state: the fields `init`, `zoom` and the event
handlers assign on `this` (for a single live instance; the cross-instance
prototype sharing of the three collections is modelled separately below). -/
structure SkyState (α : Type) where
  radius : ℝ
  initialRadius : ℝ
  containerWidth : ℝ
  containerHeight : ℝ
  zoomFactor : ℝ
  isMoving : Bool
  starLines : List (StarLine α)
  starPoints : List (SkyPoint α)
  objectPoints : List (SkyPoint α)

/-- `SkySphere.prototype.applyTransform` (lines 231-247): run the per-point
mutation over both endpoints of every line, every star point and every custom
object point. -/
def applyTransform (f : SkyPoint α → SkyPoint α) (s : SkyState α) : SkyState α :=
  { s with
    starLines := s.starLines.map (fun l => ⟨f l.skyPoint1, f l.skyPoint2⟩)
    starPoints := s.starPoints.map f
    objectPoints := s.objectPoints.map f }

/-- The per-point closure of `SkySphere.prototype.rotateXY` (lines 255-272),
transcribed literally: parameters are `(dy, dx)` in the source's order, and
`my1 = sindx*sindy`, `my3 = sindx*cosdy`, `mz1 = cosdx*sindy`,
`mz3 = cosdx*cosdy` as in the source. -/
def rotateXYPoint (dy dx centerX centerY : ℝ) (p : SkyPoint α) : SkyPoint α :=
  let sindx := Real.sin dx
  let cosdx := Real.cos dx
  let sindy := Real.sin dy
  let cosdy := Real.cos dy
  let my1 := sindx * sindy
  let my3 := sindx * cosdy
  let mz1 := cosdx * sindy
  let mz3 := cosdx * cosdy
  let x := p.x - centerX
  let y := -p.y + centerY
  { x := x * cosdy + p.z * sindy + centerX
    y := -x * my1 - y * cosdx + p.z * my3 + centerY
    z := -x * mz1 + y * sindx + p.z * mz3
    data := p.data }

/-- `SkySphere.prototype.rotateXY` at the state level: the rotation closure is
applied to every tracked point via `applyTransform`. -/
def rotateXY (dy dx : ℝ) (s : SkyState α) : SkyState α :=
  applyTransform (rotateXYPoint dy dx (s.containerWidth / 2) (s.containerHeight / 2)) s

/-- The squared distance of a point from the viewport center (the invariant of
claim C3): `(x - centerX)^2 + (y - centerY)^2 + z^2`. -/
def normSq (centerX centerY : ℝ) (p : SkyPoint α) : ℝ :=
  (p.x - centerX) ^ 2 + (p.y - centerY) ^ 2 + p.z ^ 2

/-- Modelled from the spec's words (§4.4, the formula block quoted by claim
C2): with `sx = sin(dYaw)`, `cx = cos(dYaw)`, `sy = sin(dPitch)`,
`cy = cos(dPitch)`, working coordinates `x' = x - centerX`,
`y' = -y + centerY`, the spec asserts
`x_new = x'*cx + z*sx + centerX`,
`y_new = -x'*sx*sy - y'*cx + z*sx*cx + centerY`,
`z_new = -x'*sx*cy + y'*sy + z*cx*cy`. -/
def rotateXYPointClaimed (dPitch dYaw centerX centerY : ℝ) (p : SkyPoint α) : SkyPoint α :=
  let sx := Real.sin dYaw
  let cx := Real.cos dYaw
  let sy := Real.sin dPitch
  let cy := Real.cos dPitch
  let x := p.x - centerX
  let y := -p.y + centerY
  { x := x * cx + p.z * sx + centerX
    y := -x * sx * sy - y * cx + p.z * sx * cx + centerY
    z := -x * sx * cy + y * sy + p.z * cx * cy
    data := p.data }

/-- The per-point closure of `SkySphere.prototype.zoom` (lines 331-336):
scale the center-relative coordinates by the factor (`z` carries no center
term). -/
def zoomPoint (zoomFactor centerX centerY : ℝ) (p : SkyPoint α) : SkyPoint α :=
  { x := zoomFactor * (p.x - centerX) + centerX
    y := zoomFactor * (p.y - centerY) + centerY
    z := zoomFactor * p.z
    data := p.data }

/-- `SkySphere.prototype.zoom` (lines 324-339), minus the terminal redraw.
`self.zoomFactor = zoomFactor` runs inside the per-point closure, so that
field is only updated when at least one point exists. -/
def zoom (zoomFactor : ℝ) (s : SkyState α) : SkyState α :=
  let s1 := applyTransform (zoomPoint zoomFactor (s.containerWidth / 2) (s.containerHeight / 2))
    { s with radius := s.radius * zoomFactor }
  if s.starLines.isEmpty && s.starPoints.isEmpty && s.objectPoints.isEmpty then s1
  else { s1 with zoomFactor := zoomFactor }

/-- `SkySphere.prototype.absoluteZoom` (lines 345-347). -/
def absoluteZoom (zoomFactor : ℝ) (s : SkyState α) : SkyState α :=
  zoom (s.initialRadius * zoomFactor / s.radius) s

/-- `SkySphere.prototype.addCustomObject` (lines 386-390), also returning the
generated point (in JS, the very reference that was pushed). -/
def addCustomObject (ra dec : ℝ) (data : Option α) (s : SkyState α) :
    SkyState α × SkyPoint α :=
  let skyPoint := generateSkyPoint s.radius s.containerWidth s.containerHeight
    (ra2rad ra) (dec2rad dec) data
  ({ s with objectPoints := s.objectPoints ++ [skyPoint] }, skyPoint)

/-- The hit condition of the click scan in `stopMove` (line 151): strictly
within `area` pixels of the tap on each axis independently, and `z >= 0`. -/
def hitCond (area x y : ℝ) (p : SkyPoint α) : Prop :=
  |p.x - x| < area ∧ |p.y - y| < area ∧ 0 ≤ p.z

instance (area x y : ℝ) (p : SkyPoint α) : Decidable (hitCond area x y p) :=
  inferInstanceAs (Decidable (|p.x - x| < area ∧ |p.y - y| < area ∧ 0 ≤ p.z))

/-- The click scan of `stopMove` (lines 149-155): walk `objectPoints` in
insertion order and return the first point satisfying the hit condition (the
source then invokes `customOnClick(skyPoint.data.clickData)` on it and
stops). -/
def hitTestPoint (area x y : ℝ) : List (SkyPoint α) → Option (SkyPoint α)
  | [] => none
  | skyPoint :: rest =>
      if hitCond area x y skyPoint then some skyPoint
      else hitTestPoint area x y rest

/-- The fixed centering step angle of `centerSkyPoint` (`.05` radians,
lines 293-294). -/
def stepAngle : ℝ := 0.05

/-- `var dx = skyPoint.x < centerX ? .05 : -.05;` (line 293). -/
def centerDX (centerX : ℝ) (p : SkyPoint α) : ℝ :=
  if p.x < centerX then stepAngle else -stepAngle

/-- `var dy = skyPoint.y > centerY ? .05 : -.05;` (line 294). -/
def centerDY (centerY : ℝ) (p : SkyPoint α) : ℝ :=
  if p.y > centerY then stepAngle else -stepAngle

/-- The loop guard of `moveXUntilCenter` (line 298), with JS operator
precedence (`&&` over `||`) made explicit, for `x = skyPoint.x - centerX`:
`(x !== 0 && (dx > 0 && x < 0)) || (dx < 0 && x > 0)`. -/
def contX (centerX dx : ℝ) (p : SkyPoint α) : Prop :=
  (p.x - centerX ≠ 0 ∧ 0 < dx ∧ p.x - centerX < 0) ∨ (dx < 0 ∧ 0 < p.x - centerX)

/-- The loop guard of `moveYUntilCenter` (line 307), for
`y = -skyPoint.y + centerY`. -/
def contY (centerY dy : ℝ) (p : SkyPoint α) : Prop :=
  (-p.y + centerY ≠ 0 ∧ 0 < dy ∧ -p.y + centerY < 0) ∨ (dy < 0 ∧ 0 < -p.y + centerY)

/-- One step of the horizontal centering phase: `self.rotateXY(dx, 0)`
(line 299), at the point level. -/
def xPhaseStep (dx centerX centerY : ℝ) : SkyPoint α → SkyPoint α :=
  rotateXYPoint dx 0 centerX centerY

/-- One step of the vertical centering phase: `self.rotateXY(0, -dy)`
(line 308), at the point level. -/
def yPhaseStep (dy centerX centerY : ℝ) : SkyPoint α → SkyPoint α :=
  rotateXYPoint 0 (-dy) centerX centerY

/-- `centerSkyPoint` (lines 280-318) with the two phase loop lengths made
explicit: set `isMoving`, run `kx` steps of `rotateXY(dx, 0)`, then `ky`
steps of `rotateXY(0, -dy)`, then clear `isMoving` (the `else` branch of
`moveYUntilCenter`). -/
def centerSkyPointRun (kx ky : ℕ) (dx dy : ℝ) (s : SkyState α) : SkyState α :=
  let s1 := (rotateXY dx 0)^[kx] { s with isMoving := true }
  let s2 := (rotateXY 0 (-dy))^[ky] s1
  { s2 with isMoving := false }

/-- The generic loop guard shared by both centering phases: `t` is the
center-relative coordinate driven to zero and `s` the chosen signed step. -/
def contGen (s t : ℝ) : Prop :=
  (t ≠ 0 ∧ 0 < s ∧ t < 0) ∨ (s < 0 ∧ 0 < t)

/-- The planar rotation both centering phases induce on the pair (driven
coordinate, depth): `(a, b) ↦ (a cos d + b sin d, -a sin d + b cos d)`. -/
def rot2 (d : ℝ) (ab : ℝ × ℝ) : ℝ × ℝ :=
  (ab.1 * Real.cos d + ab.2 * Real.sin d, -ab.1 * Real.sin d + ab.2 * Real.cos d)

/-- The star catalog (`constellations.l`, `constellations.s`): edge index
pairs into the star array, and star angle pairs (already in radians, as
`init` passes them to `generateSkyPoint` unconverted). -/
structure Catalog where
  l : List (ℕ × ℕ)
  s : List (ℝ × ℝ)

/-- Constructor options; an absent field models JS `undefined`, in which case
`init` falls back to the documented default. -/
structure SkyOptions where
  width : Option ℝ
  height : Option ℝ
  initialRadius : Option ℝ

/-- The three point collections.  In the source they are initialized once on
`SkySphere.prototype` (lines 83-85) and only ever mutated through `push`
inside `init` and `addCustomObject`, never re-assigned as own properties, so
every instance resolves `this.starLines` / `this.starPoints` /
`this.objectPoints` to this single shared record. -/
structure ProtoCollections (α : Type) where
  starLines : List (StarLine α)
  starPoints : List (SkyPoint α)
  objectPoints : List (SkyPoint α)

/-- The per-instance own properties `init` assigns on `this` (lines 92-95). -/
structure SkySphereOwn where
  containerWidth : ℝ
  containerHeight : ℝ
  radius : ℝ
  initialRadius : ℝ

/-- The `SkySphere` constructor together with `init` (lines 76-113), with the
canvas, DOM and event wiring stripped: compute the own properties, then push
one line per catalog edge and one point per catalog star onto the shared
prototype collections. -/
def constructSkySphere (options : SkyOptions) (constellations : Catalog)
    (proto : ProtoCollections α) : SkySphereOwn × ProtoCollections α :=
  let containerWidth := options.width.getD 400
  let containerHeight := options.height.getD containerWidth
  let initialRadius := options.initialRadius.getD (min containerWidth containerHeight * 0.45)
  let radius := initialRadius
  let newLines := constellations.l.map (fun line =>
    let star1 := constellations.s.getD line.1 (0, 0)
    let star2 := constellations.s.getD line.2 (0, 0)
    { skyPoint1 := generateSkyPoint radius containerWidth containerHeight star1.1 star1.2 none
      skyPoint2 := generateSkyPoint radius containerWidth containerHeight star2.1 star2.2 none })
  let newPoints := constellations.s.map (fun star =>
    generateSkyPoint radius containerWidth containerHeight star.1 star.2 none)
  (⟨containerWidth, containerHeight, radius, initialRadius⟩,
    { proto with
      starLines := proto.starLines ++ newLines
      starPoints := proto.starPoints ++ newPoints })

/-- `addCustomObject` as it behaves across instances: the push lands on the
shared prototype `objectPoints` that every instance reads. -/
def addCustomObjectShared (own : SkySphereOwn) (ra dec : ℝ) (data : Option α)
    (proto : ProtoCollections α) : ProtoCollections α × SkyPoint α :=
  let skyPoint := generateSkyPoint own.radius own.containerWidth own.containerHeight
    (ra2rad ra) (dec2rad dec) data
  ({ proto with objectPoints := proto.objectPoints ++ [skyPoint] }, skyPoint)

/-- A small concrete instance used to instantiate the hypotheses of the zoom
theorem on explicit data. -/
def sampleState : SkyState Unit :=
  { radius := 2, initialRadius := 3, containerWidth := 400, containerHeight := 400,
    zoomFactor := 1, isMoving := false, starLines := [], starPoints := [],
    objectPoints := [⟨7, 8, 9, none⟩] }

/-- A concrete payload-carrying point used to instantiate the hit-test
theorem. -/
def samplePoint : SkyPoint Unit :=
  ⟨5, 7, 2, some ()⟩

/-- Claim C1: `generateSkyPoint` returns exactly the orthographic projection
`x = r·sin(dec)·cos(ra) + centerX`, `y = -r·sin(dec)·sin(ra) + centerY`,
`z = r·cos(dec)` with the viewport center `(containerWidth/2,
containerHeight/2)`, and the `data` field is present on the result iff a
`data` argument was supplied. -/
theorem generateSkyPoint_correct (radius containerWidth containerHeight ra dec : ℝ)
    (data : Option α) :
    (generateSkyPoint radius containerWidth containerHeight ra dec data).x
        = radius * Real.sin dec * Real.cos ra + containerWidth / 2 ∧
    (generateSkyPoint radius containerWidth containerHeight ra dec data).y
        = -radius * Real.sin dec * Real.sin ra + containerHeight / 2 ∧
    (generateSkyPoint radius containerWidth containerHeight ra dec data).z
        = radius * Real.cos dec ∧
    (generateSkyPoint radius containerWidth containerHeight ra dec data).data = data ∧
    ((generateSkyPoint radius containerWidth containerHeight ra dec data).data.isSome
        ↔ data.isSome) :=
  ⟨rfl, rfl, rfl, rfl, Iff.rfl⟩

/-- Claim C9: the coordinate conversions satisfy
`dec2rad dec = (dec + 90)·π/180` and `ra2rad ra = ra·π/12`, with the stated
boundary values. -/
theorem coordinate_conversions_correct :
    (∀ dec : ℝ, dec2rad dec = (dec + 90) * Real.pi / 180) ∧
    (∀ ra : ℝ, ra2rad ra = ra * Real.pi / 12) ∧
    dec2rad (-90) = 0 ∧ dec2rad 90 = Real.pi ∧
    ra2rad 0 = 0 ∧ ra2rad 24 = 2 * Real.pi := by
  have hdec : ∀ dec : ℝ, dec2rad dec = (dec + 90) * Real.pi / 180 := by
    intro dec; unfold dec2rad; ring
  have hra : ∀ ra : ℝ, ra2rad ra = ra * Real.pi / 12 := by
    intro ra; unfold ra2rad; ring
  refine ⟨hdec, hra, ?_, ?_, ?_, ?_⟩
  · rw [hdec]; norm_num
  · rw [hdec]; norm_num
  · rw [hra]; norm_num
  · rw [hra]; ring

/-- Claim C2, counterexample: at `dPitch = π/2`, `dYaw = 0`,
`center = (0,0)` and the point `(1,0,0)`, the code's rotation moves `x` to
`0` while the spec's formula keeps `x = 1`; the claimed formula is not the
one the code computes. -/
theorem rotateXY_formula_counterexample :
    rotateXYPoint (Real.pi / 2) 0 0 0 (⟨1, 0, 0, none⟩ : SkyPoint Unit)
      ≠ rotateXYPointClaimed (Real.pi / 2) 0 0 0 (⟨1, 0, 0, none⟩ : SkyPoint Unit) := by
  intro h
  have hx := congrArg SkyPoint.x h
  simp only [rotateXYPoint, rotateXYPointClaimed, Real.sin_pi_div_two, Real.cos_pi_div_two,
    Real.sin_zero, Real.cos_zero] at hx
  norm_num at hx

/-- Claim C2, amended: the code's `rotateXY(dPitch, dYaw)` (first formal
parameter `dy`, second `dx` in the source) sets, with `sx = sin dYaw`,
`cx = cos dYaw`, `sy = sin dPitch`, `cy = cos dPitch`, `x' = x - centerX`,
`y' = -y + centerY`:
`x_new = x'*cy + z*sy + centerX`,
`y_new = -x'*(sx*sy) - y'*cx + z*(sx*cy) + centerY`,
`z_new = -x'*(cx*sy) + y'*sx + z*(cx*cy)`
(the spec's formula block uses `cx`/`sx` where the code uses `cy`/`sy` in the
`x` row, `cx` in place of `cy` in the last `y` term, and swaps the roles in
two `z` terms). -/
theorem rotateXY_formula_amended (dPitch dYaw centerX centerY : ℝ) (p : SkyPoint α) :
    rotateXYPoint dPitch dYaw centerX centerY p =
      { x := (p.x - centerX) * Real.cos dPitch + p.z * Real.sin dPitch + centerX
        y := -(p.x - centerX) * (Real.sin dYaw * Real.sin dPitch)
              - (-p.y + centerY) * Real.cos dYaw
              + p.z * (Real.sin dYaw * Real.cos dPitch) + centerY
        z := -(p.x - centerX) * (Real.cos dYaw * Real.sin dPitch)
              + (-p.y + centerY) * Real.sin dYaw
              + p.z * (Real.cos dYaw * Real.cos dPitch)
        data := p.data } := by
  refine SkyPoint.ext ?_ ?_ ?_ rfl <;> simp only [rotateXYPoint] <;> ring

/-- One `rotateXY` application preserves the squared distance from the
viewport center (the rotation matrix is orthogonal). -/
theorem rotateXYPoint_normSq (dy dx centerX centerY : ℝ) (p : SkyPoint α) :
    normSq centerX centerY (rotateXYPoint dy dx centerX centerY p)
      = normSq centerX centerY p := by
  have hx := Real.sin_sq_add_cos_sq dx
  have hy := Real.sin_sq_add_cos_sq dy
  simp only [normSq, rotateXYPoint]
  linear_combination
    (((p.x - centerX) * Real.sin dy - p.z * Real.cos dy) ^ 2 + (p.y - centerY) ^ 2) * hx
      + ((p.x - centerX) ^ 2 + p.z ^ 2) * hy

/-- Claim C3: any finite sequence of `rotateXY` calls, with arbitrary angle
deltas, leaves `(x - centerX)^2 + (y - centerY)^2 + z^2` of every point
unchanged, over exact real arithmetic. -/
theorem rotateXY_norm_preserving (deltas : List (ℝ × ℝ)) (centerX centerY : ℝ)
    (p : SkyPoint α) :
    normSq centerX centerY
        (deltas.foldl (fun q d => rotateXYPoint d.1 d.2 centerX centerY q) p)
      = normSq centerX centerY p := by
  induction deltas generalizing p with
  | nil => rfl
  | cons d rest ih =>
      rw [List.foldl_cons, ih (rotateXYPoint d.1 d.2 centerX centerY p)]
      exact rotateXYPoint_normSq d.1 d.2 centerX centerY p

theorem zoom_radius (zoomFactor : ℝ) (s : SkyState α) :
    (zoom zoomFactor s).radius = s.radius * zoomFactor := by
  simp only [zoom, applyTransform]
  split <;> rfl

theorem zoom_initialRadius (zoomFactor : ℝ) (s : SkyState α) :
    (zoom zoomFactor s).initialRadius = s.initialRadius := by
  simp only [zoom, applyTransform]
  split <;> rfl

theorem zoom_containerWidth (zoomFactor : ℝ) (s : SkyState α) :
    (zoom zoomFactor s).containerWidth = s.containerWidth := by
  simp only [zoom, applyTransform]
  split <;> rfl

theorem zoom_containerHeight (zoomFactor : ℝ) (s : SkyState α) :
    (zoom zoomFactor s).containerHeight = s.containerHeight := by
  simp only [zoom, applyTransform]
  split <;> rfl

theorem zoom_objectPoints (zoomFactor : ℝ) (s : SkyState α) :
    (zoom zoomFactor s).objectPoints
      = s.objectPoints.map
          (zoomPoint zoomFactor (s.containerWidth / 2) (s.containerHeight / 2)) := by
  simp only [zoom, applyTransform]
  split <;> rfl

theorem zoom_starPoints (zoomFactor : ℝ) (s : SkyState α) :
    (zoom zoomFactor s).starPoints
      = s.starPoints.map
          (zoomPoint zoomFactor (s.containerWidth / 2) (s.containerHeight / 2)) := by
  simp only [zoom, applyTransform]
  split <;> rfl

theorem zoom_starLines (zoomFactor : ℝ) (s : SkyState α) :
    (zoom zoomFactor s).starLines
      = s.starLines.map (fun l =>
          ⟨zoomPoint zoomFactor (s.containerWidth / 2) (s.containerHeight / 2) l.skyPoint1,
           zoomPoint zoomFactor (s.containerWidth / 2) (s.containerHeight / 2) l.skyPoint2⟩) := by
  simp only [zoom, applyTransform]
  split <;> rfl

theorem zoomPoint_one (centerX centerY : ℝ) (p : SkyPoint α) :
    zoomPoint 1 centerX centerY p = p := by
  refine SkyPoint.ext ?_ ?_ ?_ rfl <;> simp only [zoomPoint] <;> ring

/-- Claim C4: with nonzero current radius, `absoluteZoom k` always lands on
radius `initialRadius * k` whatever the prior zoom history (the state `s` is
arbitrary); a second `absoluteZoom k` — on an instance whose current radius
`initialRadius * k` is again nonzero — has relative factor exactly `1` and
leaves the radius and every point collection unchanged; and `zoom f1` followed
by `zoom f2` multiplies the radius by `f1 * f2`. -/
theorem absoluteZoom_correct (s : SkyState α) (k : ℝ) (hr : s.radius ≠ 0) :
    (absoluteZoom k s).radius = s.initialRadius * k ∧
    (∀ f1 f2 : ℝ, (zoom f2 (zoom f1 s)).radius = s.radius * (f1 * f2)) ∧
    (s.initialRadius * k ≠ 0 →
      (absoluteZoom k s).initialRadius * k / (absoluteZoom k s).radius = 1 ∧
      (absoluteZoom k (absoluteZoom k s)).radius = (absoluteZoom k s).radius ∧
      (absoluteZoom k (absoluteZoom k s)).objectPoints = (absoluteZoom k s).objectPoints ∧
      (absoluteZoom k (absoluteZoom k s)).starPoints = (absoluteZoom k s).starPoints ∧
      (absoluteZoom k (absoluteZoom k s)).starLines = (absoluteZoom k s).starLines) := by
  have hrad : (absoluteZoom k s).radius = s.initialRadius * k := by
    rw [absoluteZoom, zoom_radius]
    field_simp
  refine ⟨hrad, fun f1 f2 => by rw [zoom_radius, zoom_radius]; ring, fun hk => ?_⟩
  have hinit : (absoluteZoom k s).initialRadius = s.initialRadius := by
    rw [absoluteZoom, zoom_initialRadius]
  have hfac : (absoluteZoom k s).initialRadius * k / (absoluteZoom k s).radius = 1 := by
    rw [hinit, hrad]
    exact div_self hk
  have hone : absoluteZoom k (absoluteZoom k s) = zoom 1 (absoluteZoom k s) := by
    rw [absoluteZoom, hfac]
  have hid : zoomPoint (α := α) 1 ((absoluteZoom k s).containerWidth / 2)
      ((absoluteZoom k s).containerHeight / 2) = id :=
    funext fun p => zoomPoint_one _ _ p
  refine ⟨hfac, ?_, ?_, ?_, ?_⟩
  · rw [hone, zoom_radius, mul_one]
  · rw [hone, zoom_objectPoints, hid, List.map_id]
  · rw [hone, zoom_starPoints, hid, List.map_id]
  · rw [hone, zoom_starLines, hid]
    exact List.map_id' (absoluteZoom k s).starLines

/-- Witness for claim C4's theorem at a concrete instance with radius `2`,
initial radius `3` and factor `5`. -/
theorem absoluteZoom_correct_witness :
    sampleState.radius ≠ 0 ∧
    (absoluteZoom 5 sampleState).radius = sampleState.initialRadius * 5 := by
  have h : sampleState.radius ≠ 0 := by norm_num [sampleState]
  exact ⟨h, (absoluteZoom_correct sampleState 5 h).1⟩

/-- Claim C5, counterexample: a custom object projected exactly at the click
position `(10, 20)` with `z = 1 > 0` is not found at tolerance `0`: the scan
compares with strict `<`, and `|10 - 10| < 0` fails. -/
theorem hitTest_zero_tolerance_counterexample :
    hitTestPoint 0 10 20 [(⟨10, 20, 1, some 0⟩ : SkyPoint ℕ)] = none := by
  rw [hitTestPoint, if_neg, hitTestPoint]
  intro h
  have := h.1
  norm_num at this

/-- Claim C5, amended: the click scan returns the first object in insertion
order that is strictly within the tolerance on each axis independently and
has `z ≥ 0`; an object projected exactly at the click position with `z > 0`
guarantees a hit for every tolerance `> 0` (not `≥ 0` as claimed: the
comparison is strict, so tolerance `0` finds nothing); and a returned object
always has `z ≥ 0`, so an object with `z < 0` is never the one found, for any
tolerance. -/
theorem hitTest_amended (area x y : ℝ) (ps : List (SkyPoint α)) :
    (∀ q, hitTestPoint area x y ps = some q →
        hitCond area x y q ∧
        ∃ l₁ l₂, ps = l₁ ++ q :: l₂ ∧ ∀ p ∈ l₁, ¬ hitCond area x y p) ∧
    ((∃ p ∈ ps, p.x = x ∧ p.y = y ∧ 0 < p.z) → 0 < area →
        (hitTestPoint area x y ps).isSome = true) ∧
    (∀ q, hitTestPoint area x y ps = some q → 0 ≤ q.z) := by
  induction ps with
  | nil =>
      refine ⟨fun q h => by simp [hitTestPoint] at h, ?_, fun q h => by simp [hitTestPoint] at h⟩
      rintro ⟨p, hp, -⟩
      exact absurd hp (List.not_mem_nil p)
  | cons a rest ih =>
      by_cases hc : hitCond area x y a
      · refine ⟨fun q h => ?_, fun _ _ => ?_, fun q h => ?_⟩
        · rw [hitTestPoint, if_pos hc] at h
          obtain rfl : a = q := by injection h
          exact ⟨hc, [], rest, rfl, fun p hp => absurd hp (List.not_mem_nil p)⟩
        · rw [hitTestPoint, if_pos hc]
          rfl
        · rw [hitTestPoint, if_pos hc] at h
          obtain rfl : a = q := by injection h
          exact hc.2.2
      · refine ⟨fun q h => ?_, fun hex harea => ?_, fun q h => ?_⟩
        · rw [hitTestPoint, if_neg hc] at h
          obtain ⟨hq, l₁, l₂, hsplit, hnone⟩ := ih.1 q h
          refine ⟨hq, a :: l₁, l₂, by rw [hsplit]; rfl, fun p hp => ?_⟩
          rcases List.mem_cons.mp hp with rfl | hp'
          · exact hc
          · exact hnone p hp'
        · obtain ⟨p, hp, hpx, hpy, hpz⟩ := hex
          rcases List.mem_cons.mp hp with rfl | hp'
          · exact absurd ⟨by rw [hpx]; simpa using harea,
              by rw [hpy]; simpa using harea, hpz.le⟩ hc
          · rw [hitTestPoint, if_neg hc]
            exact ih.2.1 ⟨p, hp', hpx, hpy, hpz⟩ harea
        · rw [hitTestPoint, if_neg hc] at h
          exact ih.2.2 q h

/-- Witness for claim C5's amended theorem: a point at `(5, 7)` with `z = 2`
is found by a tap at `(5, 7)` with tolerance `1`. -/
theorem hitTest_amended_witness :
    ((∃ p ∈ [samplePoint], p.x = (5 : ℝ) ∧ p.y = 7 ∧ 0 < p.z) ∧ (0 : ℝ) < 1) ∧
    (hitTestPoint 1 5 7 [samplePoint]).isSome = true := by
  have hex : ∃ p ∈ [samplePoint], p.x = (5 : ℝ) ∧ p.y = 7 ∧ 0 < p.z :=
    ⟨samplePoint, by simp, rfl, rfl, by norm_num [samplePoint]⟩
  exact ⟨⟨hex, by norm_num⟩,
    (hitTest_amended 1 5 7 [samplePoint]).2.1 hex (by norm_num)⟩

/-- Claim C8 (code bug): on a default-sized sphere, `addCustomObject(0, -90)`
with no `data` argument yields a point projected exactly at the canvas center
`(200, 200)` with `z = 180 ≥ 0`; a tap there makes the `stopMove` scan
(desktop `area = 6`) select this payload-less point, whose `data` is absent —
the source then dereferences `skyPoint.data.clickData`, a TypeError. -/
theorem hitTest_selects_payloadless_point :
    (hitTestPoint 6 200 200
        ((addCustomObject 0 (-90) none
            { radius := 180, initialRadius := 180, containerWidth := 400,
              containerHeight := 400, zoomFactor := 1, isMoving := false,
              starLines := [], starPoints := [],
              objectPoints := ([] : List (SkyPoint Unit)) }).1.objectPoints)).map
      SkyPoint.data = some none := by
  have hra : ra2rad 0 = 0 := by unfold ra2rad; ring
  have hdec : dec2rad (-90) = 0 := by unfold dec2rad; ring
  have hpt : generateSkyPoint (α := Unit) 180 400 400 (ra2rad 0) (dec2rad (-90)) none
      = ⟨200, 200, 180, none⟩ := by
    rw [hra, hdec]
    refine SkyPoint.ext ?_ ?_ ?_ rfl <;>
      simp [generateSkyPoint, Real.sin_zero, Real.cos_zero] <;> norm_num
  simp only [addCustomObject, List.nil_append, hpt]
  rw [hitTestPoint, if_pos]
  · rfl
  · refine ⟨by norm_num, by norm_num, by norm_num⟩

/-- Claim C10: `addCustomObject` appends exactly the projection of
`(ra2rad ra, dec2rad dec)` under the current radius and viewport center, with
the given payload, to the end of `objectPoints`; it returns that very
element; subsequent `rotateXY` and `zoom` calls transform exactly the element
stored at that position; and `starLines`, `starPoints`, `radius` and the
viewport size are unchanged. -/
theorem addCustomObject_correct (s : SkyState α) (ra dec : ℝ) (data : Option α) :
    (addCustomObject ra dec data s).2
        = generateSkyPoint s.radius s.containerWidth s.containerHeight
            (ra2rad ra) (dec2rad dec) data ∧
    (addCustomObject ra dec data s).1.objectPoints
        = s.objectPoints ++ [(addCustomObject ra dec data s).2] ∧
    (addCustomObject ra dec data s).1.objectPoints.getLast?
        = some (addCustomObject ra dec data s).2 ∧
    (addCustomObject ra dec data s).1.starLines = s.starLines ∧
    (addCustomObject ra dec data s).1.starPoints = s.starPoints ∧
    (addCustomObject ra dec data s).1.radius = s.radius ∧
    (addCustomObject ra dec data s).1.containerWidth = s.containerWidth ∧
    (addCustomObject ra dec data s).1.containerHeight = s.containerHeight ∧
    (∀ dy dx, (rotateXY dy dx (addCustomObject ra dec data s).1).objectPoints[s.objectPoints.length]?
        = some (rotateXYPoint dy dx (s.containerWidth / 2) (s.containerHeight / 2)
            (addCustomObject ra dec data s).2)) ∧
    (∀ f, (zoom f (addCustomObject ra dec data s).1).objectPoints[s.objectPoints.length]?
        = some (zoomPoint f (s.containerWidth / 2) (s.containerHeight / 2)
            (addCustomObject ra dec data s).2)) := by
  have happ : ∀ f : SkyPoint α → SkyPoint α,
      ((s.objectPoints ++ [(addCustomObject ra dec data s).2]).map f)[s.objectPoints.length]?
        = some (f (addCustomObject ra dec data s).2) := by
    intro f
    rw [List.getElem?_map, List.getElem?_append_right le_rfl]
    simp
  refine ⟨rfl, rfl, ?_, rfl, rfl, rfl, rfl, rfl, fun dy dx => ?_, fun f => ?_⟩
  · exact List.getLast?_concat _
  · rw [rotateXY]
    show ((s.objectPoints ++ [(addCustomObject ra dec data s).2]).map _)[s.objectPoints.length]? = _
    exact happ _
  · rw [zoom_objectPoints]
    exact happ _

/-- Claim C7 (code bug): the collections are shared prototype state, not
per-instance.  With a one-star, one-edge catalog, constructing a first
instance leaves the shared `starPoints`/`starLines` at length 1, but
constructing a second instance grows the very collections the first instance
reads to length 2; and a custom object added through the second instance
appears in the `objectPoints` the first instance reads. -/
theorem prototype_collections_shared :
    (constructSkySphere (α := Unit) ⟨some 400, some 400, some 100⟩ ⟨[(0, 0)], [(0, 0)]⟩
        ⟨[], [], []⟩).2.starPoints.length = 1 ∧
    (constructSkySphere (α := Unit) ⟨some 400, some 400, some 100⟩ ⟨[(0, 0)], [(0, 0)]⟩
        ⟨[], [], []⟩).2.starLines.length = 1 ∧
    (constructSkySphere ⟨some 400, some 400, some 100⟩ ⟨[(0, 0)], [(0, 0)]⟩
        (constructSkySphere (α := Unit) ⟨some 400, some 400, some 100⟩ ⟨[(0, 0)], [(0, 0)]⟩
          ⟨[], [], []⟩).2).2.starPoints.length = 2 ∧
    (constructSkySphere ⟨some 400, some 400, some 100⟩ ⟨[(0, 0)], [(0, 0)]⟩
        (constructSkySphere (α := Unit) ⟨some 400, some 400, some 100⟩ ⟨[(0, 0)], [(0, 0)]⟩
          ⟨[], [], []⟩).2).2.starLines.length = 2 ∧
    (addCustomObjectShared
        (constructSkySphere ⟨some 400, some 400, some 100⟩ ⟨[(0, 0)], [(0, 0)]⟩
          (constructSkySphere (α := Unit) ⟨some 400, some 400, some 100⟩ ⟨[(0, 0)], [(0, 0)]⟩
            ⟨[], [], []⟩).2).1 0 0 (some ())
        (constructSkySphere ⟨some 400, some 400, some 100⟩ ⟨[(0, 0)], [(0, 0)]⟩
          (constructSkySphere (α := Unit) ⟨some 400, some 400, some 100⟩ ⟨[(0, 0)], [(0, 0)]⟩
            ⟨[], [], []⟩).2).2).1.objectPoints
      = [(addCustomObjectShared
          (constructSkySphere ⟨some 400, some 400, some 100⟩ ⟨[(0, 0)], [(0, 0)]⟩
            (constructSkySphere (α := Unit) ⟨some 400, some 400, some 100⟩ ⟨[(0, 0)], [(0, 0)]⟩
              ⟨[], [], []⟩).2).1 0 0 (some ())
          (constructSkySphere ⟨some 400, some 400, some 100⟩ ⟨[(0, 0)], [(0, 0)]⟩
            (constructSkySphere (α := Unit) ⟨some 400, some 400, some 100⟩ ⟨[(0, 0)], [(0, 0)]⟩
              ⟨[], [], []⟩).2).2).2] := by
  refine ⟨?_, ?_, ?_, ?_, ?_⟩ <;>
    simp [constructSkySphere, addCustomObjectShared]

theorem abs_cos_sub_cos_le (u v : ℝ) : |Real.cos u - Real.cos v| ≤ |u - v| := by
  rw [Real.cos_sub_cos]
  calc |(-2) * Real.sin ((u + v) / 2) * Real.sin ((u - v) / 2)|
      = 2 * |Real.sin ((u + v) / 2)| * |Real.sin ((u - v) / 2)| := by
        rw [abs_mul, abs_mul]
        norm_num
    _ ≤ 2 * 1 * |(u - v) / 2| := by
        have h1 := Real.abs_sin_le_one ((u + v) / 2)
        have h2 := Real.abs_sin_le_abs (x := (u - v) / 2)
        nlinarith [abs_nonneg (Real.sin ((u + v) / 2)), abs_nonneg (Real.sin ((u - v) / 2))]
    _ = |u - v| := by
        rw [abs_div, abs_two]
        ring

theorem rot2_iterate (d a b : ℝ) (k : ℕ) :
    (rot2 d)^[k] (a, b)
      = (a * Real.cos (k * d) + b * Real.sin (k * d),
         -(a * Real.sin (k * d)) + b * Real.cos (k * d)) := by
  induction k with
  | zero => simp [Real.cos_zero, Real.sin_zero]
  | succ n ih =>
      rw [Function.iterate_succ_apply', ih]
      show ((a * Real.cos (n * d) + b * Real.sin (n * d)) * Real.cos d
            + (-(a * Real.sin (n * d)) + b * Real.cos (n * d)) * Real.sin d,
          -(a * Real.cos (n * d) + b * Real.sin (n * d)) * Real.sin d
            + (-(a * Real.sin (n * d)) + b * Real.cos (n * d)) * Real.cos d) = _
      rw [Prod.mk.injEq]
      constructor <;>
      · rw [show ((n + 1 : ℕ) : ℝ) * d = (n : ℝ) * d + d by push_cast; ring,
          Real.cos_add, Real.sin_add]
        ring

theorem rot2_iterate_normSq (d a b : ℝ) (k : ℕ) :
    ((rot2 d)^[k] (a, b)).1 ^ 2 + ((rot2 d)^[k] (a, b)).2 ^ 2 = a ^ 2 + b ^ 2 := by
  rw [rot2_iterate]
  show (a * Real.cos (k * d) + b * Real.sin (k * d)) ^ 2
      + (-(a * Real.sin (k * d)) + b * Real.cos (k * d)) ^ 2 = a ^ 2 + b ^ 2
  have h := Real.sin_sq_add_cos_sq ((k : ℝ) * d)
  linear_combination (a ^ 2 + b ^ 2) * h

theorem polar_decomposition (a b : ℝ) (h : ¬(a = 0 ∧ b = 0)) :
    ∃ φ : ℝ, -Real.pi < φ ∧ φ ≤ Real.pi ∧
      a = Real.sqrt (a ^ 2 + b ^ 2) * Real.cos φ ∧
      b = Real.sqrt (a ^ 2 + b ^ 2) * Real.sin φ := by
  have hz : (⟨a, b⟩ : ℂ) ≠ 0 := by
    intro h0
    exact h ⟨by simpa using congrArg Complex.re h0, by simpa using congrArg Complex.im h0⟩
  have habs : Complex.abs ⟨a, b⟩ = Real.sqrt (a ^ 2 + b ^ 2) := by
    rw [Complex.abs_apply, Complex.normSq_mk]
    congr 1
    ring
  have habsne : Real.sqrt (a ^ 2 + b ^ 2) ≠ 0 := by
    rw [← habs]
    exact Complex.abs.ne_zero hz
  refine ⟨Complex.arg ⟨a, b⟩, Complex.neg_pi_lt_arg _, Complex.arg_le_pi _, ?_, ?_⟩
  · rw [Complex.cos_arg hz, habs]
    show a = Real.sqrt (a ^ 2 + b ^ 2) * (a / Real.sqrt (a ^ 2 + b ^ 2))
    field_simp
  · rw [Complex.sin_arg, habs]
    show b = Real.sqrt (a ^ 2 + b ^ 2) * (b / Real.sqrt (a ^ 2 + b ^ 2))
    field_simp

theorem exists_cos_nonneg_step (φ : ℝ) (h1 : -Real.pi < φ) (h2 : φ ≤ Real.pi) :
    ∃ k : ℕ, k ≤ 63 ∧ 0 ≤ Real.cos (φ - k * stepAngle) := by
  have hstep : (0 : ℝ) < stepAngle := by norm_num [stepAngle]
  have hsv : stepAngle = (0.05 : ℝ) := rfl
  have hpilt : Real.pi < 3.15 := Real.pi_lt_d2
  have hpigt : 3.14 < Real.pi := Real.pi_gt_d2
  by_cases hc : 0 ≤ Real.cos φ
  · exact ⟨0, by norm_num, by simpa using hc⟩
  push_neg at hc
  have hrange : Real.pi / 2 < φ ∨ φ < -(Real.pi / 2) := by
    by_contra hcon
    push_neg at hcon
    exact absurd (Real.cos_nonneg_of_mem_Icc (Set.mem_Icc.mpr ⟨hcon.2, hcon.1⟩))
      (not_le.mpr hc)
  rcases hrange with hφ | hφ
  · refine ⟨⌈(φ - Real.pi / 2) / stepAngle⌉₊, ?_, ?_⟩
    · rw [Nat.ceil_le, div_le_iff hstep]
      push_cast
      rw [show (63 : ℝ) * stepAngle = 3.15 by norm_num [stepAngle]]
      linarith
    · have hk1 : φ - Real.pi / 2 ≤ (⌈(φ - Real.pi / 2) / stepAngle⌉₊ : ℝ) * stepAngle := by
        rw [← div_le_iff hstep]
        exact Nat.le_ceil _
      have hdivpos : 0 < (φ - Real.pi / 2) / stepAngle := div_pos (by linarith) hstep
      have hk2 : (⌈(φ - Real.pi / 2) / stepAngle⌉₊ : ℝ) * stepAngle
          < φ - Real.pi / 2 + stepAngle := by
        have h := mul_lt_mul_of_pos_right (Nat.ceil_lt_add_one hdivpos.le) hstep
        rwa [add_mul, div_mul_cancel₀ _ (ne_of_gt hstep), one_mul] at h
      apply Real.cos_nonneg_of_mem_Icc
      rw [Set.mem_Icc]
      constructor
      · linarith
      · linarith
  · refine ⟨⌈(φ + 3 * Real.pi / 2) / stepAngle⌉₊, ?_, ?_⟩
    · rw [Nat.ceil_le, div_le_iff hstep]
      push_cast
      rw [show (63 : ℝ) * stepAngle = 3.15 by norm_num [stepAngle]]
      linarith
    · have hk1 : φ + 3 * Real.pi / 2
          ≤ (⌈(φ + 3 * Real.pi / 2) / stepAngle⌉₊ : ℝ) * stepAngle := by
        rw [← div_le_iff hstep]
        exact Nat.le_ceil _
      have hdivpos : 0 < (φ + 3 * Real.pi / 2) / stepAngle := by
        apply div_pos ?_ hstep
        linarith
      have hk2 : (⌈(φ + 3 * Real.pi / 2) / stepAngle⌉₊ : ℝ) * stepAngle
          < φ + 3 * Real.pi / 2 + stepAngle := by
        have h := mul_lt_mul_of_pos_right (Nat.ceil_lt_add_one hdivpos.le) hstep
        rwa [add_mul, div_mul_cancel₀ _ (ne_of_gt hstep), one_mul] at h
      rw [← Real.cos_add_two_pi]
      apply Real.cos_nonneg_of_mem_Icc
      rw [Set.mem_Icc]
      constructor
      · linarith
      · linarith

theorem exists_cos_nonpos_step (φ : ℝ) (h1 : -Real.pi < φ) (h2 : φ ≤ Real.pi) :
    ∃ k : ℕ, k ≤ 63 ∧ Real.cos (φ + k * stepAngle) ≤ 0 := by
  have hstep : (0 : ℝ) < stepAngle := by norm_num [stepAngle]
  have hsv : stepAngle = (0.05 : ℝ) := rfl
  have hpilt : Real.pi < 3.15 := Real.pi_lt_d2
  have hpigt : 3.14 < Real.pi := Real.pi_gt_d2
  by_cases hc : Real.cos φ ≤ 0
  · exact ⟨0, by norm_num, by simpa using hc⟩
  push_neg at hc
  have hup : φ < Real.pi / 2 := by
    by_contra hcon
    push_neg at hcon
    exact absurd (Real.cos_nonpos_of_pi_div_two_le_of_le hcon (by linarith)) (not_le.mpr hc)
  have hlo : -(Real.pi / 2) < φ := by
    by_contra hcon
    push_neg at hcon
    have : Real.cos φ ≤ 0 := by
      rw [← Real.cos_neg]
      exact Real.cos_nonpos_of_pi_div_two_le_of_le (by linarith) (by linarith)
    linarith
  refine ⟨⌈(Real.pi / 2 - φ) / stepAngle⌉₊, ?_, ?_⟩
  · rw [Nat.ceil_le, div_le_iff hstep]
    push_cast
    rw [show (63 : ℝ) * stepAngle = 3.15 by norm_num [stepAngle]]
    linarith
  · have hk1 : Real.pi / 2 - φ ≤ (⌈(Real.pi / 2 - φ) / stepAngle⌉₊ : ℝ) * stepAngle := by
      rw [← div_le_iff hstep]
      exact Nat.le_ceil _
    have hdivpos : 0 < (Real.pi / 2 - φ) / stepAngle := by
      apply div_pos ?_ hstep
      linarith
    have hk2 : (⌈(Real.pi / 2 - φ) / stepAngle⌉₊ : ℝ) * stepAngle
        < Real.pi / 2 - φ + stepAngle := by
      have h := mul_lt_mul_of_pos_right (Nat.ceil_lt_add_one hdivpos.le) hstep
      rwa [add_mul, div_mul_cancel₀ _ (ne_of_gt hstep), one_mul] at h
    apply Real.cos_nonpos_of_pi_div_two_le_of_le
    · linarith
    · linarith

theorem crossing_lemma (a b s : ℝ) (hs : s = if a < 0 then stepAngle else -stepAngle) :
    ∃ k : ℕ, k ≤ 63 ∧
      (∀ j < k, contGen s (((rot2 s)^[j] (a, b)).1)) ∧
      ¬ contGen s (((rot2 s)^[k] (a, b)).1) ∧
      |((rot2 s)^[k] (a, b)).1| ≤ stepAngle * Real.sqrt (a ^ 2 + b ^ 2) ∧
      (a = 0 → k = 0) := by
  classical
  have hstep : (0 : ℝ) < stepAngle := by norm_num [stepAngle]
  rcases lt_trichotomy a 0 with ha | ha | ha
  · -- the loop runs while the driven coordinate is negative
    have hs' : s = stepAngle := by rw [hs, if_pos ha]
    have hcont : ∀ u : ℝ, contGen s u ↔ u < 0 := by
      intro u
      unfold contGen
      rw [hs']
      constructor
      · rintro (⟨-, -, h⟩ | ⟨h, -⟩)
        · exact h
        · linarith
      · intro h
        exact Or.inl ⟨ne_of_lt h, hstep, h⟩
    obtain ⟨φ, hφ1, hφ2, hca, hcb⟩ :=
      polar_decomposition a b (fun h0 => absurd h0.1 (ne_of_lt ha))
    set ρ := Real.sqrt (a ^ 2 + b ^ 2) with hρ
    have hρpos : 0 < ρ := by
      rw [hρ]
      apply Real.sqrt_pos.mpr
      nlinarith [sq_nonneg b]
    have hA : ∀ k : ℕ, ((rot2 s)^[k] (a, b)).1 = ρ * Real.cos (φ - k * s) := by
      intro k
      rw [rot2_iterate]
      show a * Real.cos ((k : ℝ) * s) + b * Real.sin ((k : ℝ) * s)
          = ρ * Real.cos (φ - (k : ℝ) * s)
      rw [Real.cos_sub, hca, hcb]
      ring
    obtain ⟨k0, hk0le, hk0⟩ := exists_cos_nonneg_step φ hφ1 hφ2
    have hP0 : 0 ≤ ((rot2 s)^[k0] (a, b)).1 := by
      rw [hA k0, hs']
      exact mul_nonneg hρpos.le hk0
    have hex : ∃ k : ℕ, 0 ≤ ((rot2 s)^[k] (a, b)).1 := ⟨k0, hP0⟩
    set K := Nat.find hex with hK
    have hKle : K ≤ 63 := le_trans (Nat.find_min' hex hP0) hk0le
    have hKspec : 0 ≤ ((rot2 s)^[K] (a, b)).1 := Nat.find_spec hex
    have hKmin : ∀ j < K, ((rot2 s)^[j] (a, b)).1 < 0 := by
      intro j hj
      exact not_le.mp (Nat.find_min hex hj)
    have hKpos : 0 < K := by
      by_contra h0
      have hK0 : K = 0 := by omega
      have hspec := hKspec
      rw [hK0] at hspec
      have h00 : ((rot2 s)^[0] (a, b)).1 = a := rfl
      rw [h00] at hspec
      linarith
    refine ⟨K, hKle, fun j hj => (hcont _).mpr (hKmin j hj),
      fun hcongoal => absurd ((hcont _).mp hcongoal) (not_lt.mpr hKspec),
      ?_, fun h0 => absurd h0 (ne_of_lt ha)⟩
    have hprev : ((rot2 s)^[K - 1] (a, b)).1 < 0 := hKmin (K - 1) (by omega)
    have hcast : ((K - 1 : ℕ) : ℝ) = (K : ℝ) - 1 := by
      rw [Nat.cast_sub hKpos, Nat.cast_one]
    have hdiff : ((rot2 s)^[K] (a, b)).1 - ((rot2 s)^[K - 1] (a, b)).1 ≤ ρ * stepAngle := by
      rw [hA K, hA (K - 1)]
      have hlip := abs_cos_sub_cos_le (φ - (K : ℝ) * s) (φ - ((K - 1 : ℕ) : ℝ) * s)
      have harg : |(φ - (K : ℝ) * s) - (φ - ((K - 1 : ℕ) : ℝ) * s)| = stepAngle := by
        rw [hcast, hs',
          show (φ - (K : ℝ) * stepAngle) - (φ - ((K : ℝ) - 1) * stepAngle) = -stepAngle
            by ring,
          abs_neg, abs_of_pos hstep]
      calc ρ * Real.cos (φ - (K : ℝ) * s) - ρ * Real.cos (φ - ((K - 1 : ℕ) : ℝ) * s)
          = ρ * (Real.cos (φ - (K : ℝ) * s) - Real.cos (φ - ((K - 1 : ℕ) : ℝ) * s)) := by
            ring
        _ ≤ ρ * |Real.cos (φ - (K : ℝ) * s) - Real.cos (φ - ((K - 1 : ℕ) : ℝ) * s)| :=
            mul_le_mul_of_nonneg_left (le_abs_self _) hρpos.le
        _ ≤ ρ * |(φ - (K : ℝ) * s) - (φ - ((K - 1 : ℕ) : ℝ) * s)| :=
            mul_le_mul_of_nonneg_left hlip hρpos.le
        _ = ρ * stepAngle := by rw [harg]
    rw [abs_of_nonneg hKspec]
    calc ((rot2 s)^[K] (a, b)).1
        ≤ ((rot2 s)^[K] (a, b)).1 - ((rot2 s)^[K - 1] (a, b)).1 := by linarith
      _ ≤ ρ * stepAngle := hdiff
      _ = stepAngle * ρ := mul_comm _ _
  · -- coordinate already at the center: the guard is false with zero steps
    subst ha
    refine ⟨0, by norm_num, fun j hj => absurd hj (Nat.not_lt_zero j), ?_, ?_, fun _ => rfl⟩
    · show ¬ contGen s (((0 : ℝ), b).1)
      rintro (⟨h0, -, -⟩ | ⟨-, h0⟩)
      · exact h0 rfl
      · exact lt_irrefl 0 h0
    · show |((0 : ℝ), b).1| ≤ stepAngle * Real.sqrt ((0 : ℝ) ^ 2 + b ^ 2)
      rw [show (((0 : ℝ), b).1) = (0 : ℝ) from rfl, abs_zero]
      positivity
  · -- the loop runs while the driven coordinate is positive
    have hs' : s = -stepAngle := by rw [hs, if_neg (not_lt.mpr ha.le)]
    have hsneg : s < 0 := by rw [hs']; linarith
    have hcont : ∀ u : ℝ, contGen s u ↔ 0 < u := by
      intro u
      unfold contGen
      constructor
      · rintro (⟨-, h, -⟩ | ⟨-, h⟩)
        · linarith
        · exact h
      · intro h
        exact Or.inr ⟨hsneg, h⟩
    obtain ⟨φ, hφ1, hφ2, hca, hcb⟩ :=
      polar_decomposition a b (fun h0 => absurd h0.1 (ne_of_gt ha))
    set ρ := Real.sqrt (a ^ 2 + b ^ 2) with hρ
    have hρpos : 0 < ρ := by
      rw [hρ]
      apply Real.sqrt_pos.mpr
      nlinarith [sq_nonneg b]
    have hA : ∀ k : ℕ, ((rot2 s)^[k] (a, b)).1 = ρ * Real.cos (φ - k * s) := by
      intro k
      rw [rot2_iterate]
      show a * Real.cos ((k : ℝ) * s) + b * Real.sin ((k : ℝ) * s)
          = ρ * Real.cos (φ - (k : ℝ) * s)
      rw [Real.cos_sub, hca, hcb]
      ring
    obtain ⟨k0, hk0le, hk0⟩ := exists_cos_nonpos_step φ hφ1 hφ2
    have hP0 : ((rot2 s)^[k0] (a, b)).1 ≤ 0 := by
      rw [hA k0, hs', show φ - (k0 : ℝ) * -stepAngle = φ + k0 * stepAngle by ring]
      nlinarith [mul_nonneg hρpos.le (neg_nonneg.mpr hk0)]
    have hex : ∃ k : ℕ, ((rot2 s)^[k] (a, b)).1 ≤ 0 := ⟨k0, hP0⟩
    set K := Nat.find hex with hK
    have hKle : K ≤ 63 := le_trans (Nat.find_min' hex hP0) hk0le
    have hKspec : ((rot2 s)^[K] (a, b)).1 ≤ 0 := Nat.find_spec hex
    have hKmin : ∀ j < K, 0 < ((rot2 s)^[j] (a, b)).1 := by
      intro j hj
      exact not_le.mp (Nat.find_min hex hj)
    have hKpos : 0 < K := by
      by_contra h0
      have hK0 : K = 0 := by omega
      have hspec := hKspec
      rw [hK0] at hspec
      have h00 : ((rot2 s)^[0] (a, b)).1 = a := rfl
      rw [h00] at hspec
      linarith
    refine ⟨K, hKle, fun j hj => (hcont _).mpr (hKmin j hj),
      fun hcongoal => absurd ((hcont _).mp hcongoal) (not_lt.mpr hKspec),
      ?_, fun h0 => absurd h0 (ne_of_gt ha)⟩
    have hprev : 0 < ((rot2 s)^[K - 1] (a, b)).1 := hKmin (K - 1) (by omega)
    have hcast : ((K - 1 : ℕ) : ℝ) = (K : ℝ) - 1 := by
      rw [Nat.cast_sub hKpos, Nat.cast_one]
    have hdiff : ((rot2 s)^[K - 1] (a, b)).1 - ((rot2 s)^[K] (a, b)).1 ≤ ρ * stepAngle := by
      rw [hA K, hA (K - 1)]
      have hlip := abs_cos_sub_cos_le (φ - ((K - 1 : ℕ) : ℝ) * s) (φ - (K : ℝ) * s)
      have harg : |(φ - ((K - 1 : ℕ) : ℝ) * s) - (φ - (K : ℝ) * s)| = stepAngle := by
        rw [hcast, hs',
          show (φ - ((K : ℝ) - 1) * -stepAngle) - (φ - (K : ℝ) * -stepAngle) = -stepAngle
            by ring,
          abs_neg, abs_of_pos hstep]
      calc ρ * Real.cos (φ - ((K - 1 : ℕ) : ℝ) * s) - ρ * Real.cos (φ - (K : ℝ) * s)
          = ρ * (Real.cos (φ - ((K - 1 : ℕ) : ℝ) * s) - Real.cos (φ - (K : ℝ) * s)) := by
            ring
        _ ≤ ρ * |Real.cos (φ - ((K - 1 : ℕ) : ℝ) * s) - Real.cos (φ - (K : ℝ) * s)| :=
            mul_le_mul_of_nonneg_left (le_abs_self _) hρpos.le
        _ ≤ ρ * |(φ - ((K - 1 : ℕ) : ℝ) * s) - (φ - (K : ℝ) * s)| :=
            mul_le_mul_of_nonneg_left hlip hρpos.le
        _ = ρ * stepAngle := by rw [harg]
    rw [abs_of_nonpos hKspec]
    calc -((rot2 s)^[K] (a, b)).1
        ≤ ((rot2 s)^[K - 1] (a, b)).1 - ((rot2 s)^[K] (a, b)).1 := by linarith
      _ ≤ ρ * stepAngle := hdiff
      _ = stepAngle * ρ := mul_comm _ _

theorem xPhase_iterate (d centerX centerY : ℝ) (p : SkyPoint α) (k : ℕ) :
    ((xPhaseStep d centerX centerY)^[k] p).x - centerX
        = ((rot2 d)^[k] (p.x - centerX, p.z)).1 ∧
    ((xPhaseStep d centerX centerY)^[k] p).z = ((rot2 d)^[k] (p.x - centerX, p.z)).2 ∧
    ((xPhaseStep d centerX centerY)^[k] p).y = p.y := by
  induction k with
  | zero => exact ⟨rfl, rfl, rfl⟩
  | succ n ih =>
      obtain ⟨h1, h2, h3⟩ := ih
      simp only [Function.iterate_succ_apply']
      refine ⟨?_, ?_, ?_⟩
      · show (xPhaseStep d centerX centerY ((xPhaseStep d centerX centerY)^[n] p)).x - centerX
            = ((rot2 d)^[n] (p.x - centerX, p.z)).1 * Real.cos d
              + ((rot2 d)^[n] (p.x - centerX, p.z)).2 * Real.sin d
        rw [← h1, ← h2]
        simp only [xPhaseStep, rotateXYPoint, Real.sin_zero, Real.cos_zero]
        ring
      · show (xPhaseStep d centerX centerY ((xPhaseStep d centerX centerY)^[n] p)).z
            = -((rot2 d)^[n] (p.x - centerX, p.z)).1 * Real.sin d
              + ((rot2 d)^[n] (p.x - centerX, p.z)).2 * Real.cos d
        rw [← h1, ← h2]
        simp only [xPhaseStep, rotateXYPoint, Real.sin_zero, Real.cos_zero]
        ring
      · show (xPhaseStep d centerX centerY ((xPhaseStep d centerX centerY)^[n] p)).y = p.y
        rw [← h3]
        simp only [xPhaseStep, rotateXYPoint, Real.sin_zero, Real.cos_zero]
        ring

theorem yPhase_iterate (d centerX centerY : ℝ) (p : SkyPoint α) (k : ℕ) :
    -((yPhaseStep d centerX centerY)^[k] p).y + centerY
        = ((rot2 d)^[k] (-p.y + centerY, p.z)).1 ∧
    ((yPhaseStep d centerX centerY)^[k] p).z = ((rot2 d)^[k] (-p.y + centerY, p.z)).2 ∧
    ((yPhaseStep d centerX centerY)^[k] p).x = p.x := by
  induction k with
  | zero => exact ⟨rfl, rfl, rfl⟩
  | succ n ih =>
      obtain ⟨h1, h2, h3⟩ := ih
      simp only [Function.iterate_succ_apply']
      refine ⟨?_, ?_, ?_⟩
      · show -(yPhaseStep d centerX centerY ((yPhaseStep d centerX centerY)^[n] p)).y + centerY
            = ((rot2 d)^[n] (-p.y + centerY, p.z)).1 * Real.cos d
              + ((rot2 d)^[n] (-p.y + centerY, p.z)).2 * Real.sin d
        rw [← h1, ← h2]
        simp only [yPhaseStep, rotateXYPoint, Real.sin_zero, Real.cos_zero,
          Real.sin_neg, Real.cos_neg]
        ring
      · show (yPhaseStep d centerX centerY ((yPhaseStep d centerX centerY)^[n] p)).z
            = -((rot2 d)^[n] (-p.y + centerY, p.z)).1 * Real.sin d
              + ((rot2 d)^[n] (-p.y + centerY, p.z)).2 * Real.cos d
        rw [← h1, ← h2]
        simp only [yPhaseStep, rotateXYPoint, Real.sin_zero, Real.cos_zero,
          Real.sin_neg, Real.cos_neg]
        ring
      · show (yPhaseStep d centerX centerY ((yPhaseStep d centerX centerY)^[n] p)).x = p.x
        rw [← h3]
        simp only [yPhaseStep, rotateXYPoint, Real.sin_zero, Real.cos_zero,
          Real.sin_neg, Real.cos_neg]
        ring

/-- Claim C6: for any target point, the centering animation terminates.  With
`dx` and `dy` chosen at entry as in the source, the horizontal phase
(`rotateXY(dx, 0)` steps) reaches its stop condition after some first
`kx ≤ 63` steps and the vertical phase (`rotateXY(0, -dy)` steps) after some
first `ky ≤ 63` steps; the final point's `x` and `y` are each within one
step-angle (times the point's distance from the center) of the viewport
center; a point whose coordinate is exactly at the center on entry to a phase
falls through that phase with zero rotations; and the run ends with
`isMoving = false`. -/
theorem centerSkyPoint_convergence (centerX centerY : ℝ) (p : SkyPoint α) (s : SkyState α) :
    ∃ kx ky : ℕ, kx ≤ 63 ∧ ky ≤ 63 ∧
      (∀ j < kx, contX centerX (centerDX centerX p)
          ((xPhaseStep (centerDX centerX p) centerX centerY)^[j] p)) ∧
      ¬ contX centerX (centerDX centerX p)
          ((xPhaseStep (centerDX centerX p) centerX centerY)^[kx] p) ∧
      (∀ j < ky, contY centerY (centerDY centerY p)
          ((yPhaseStep (centerDY centerY p) centerX centerY)^[j]
            ((xPhaseStep (centerDX centerX p) centerX centerY)^[kx] p))) ∧
      ¬ contY centerY (centerDY centerY p)
          ((yPhaseStep (centerDY centerY p) centerX centerY)^[ky]
            ((xPhaseStep (centerDX centerX p) centerX centerY)^[kx] p)) ∧
      |((yPhaseStep (centerDY centerY p) centerX centerY)^[ky]
            ((xPhaseStep (centerDX centerX p) centerX centerY)^[kx] p)).x - centerX|
          ≤ stepAngle * Real.sqrt (normSq centerX centerY p) ∧
      |((yPhaseStep (centerDY centerY p) centerX centerY)^[ky]
            ((xPhaseStep (centerDX centerX p) centerX centerY)^[kx] p)).y - centerY|
          ≤ stepAngle * Real.sqrt (normSq centerX centerY p) ∧
      (p.x = centerX → kx = 0) ∧
      (p.y = centerY → ky = 0) ∧
      (centerSkyPointRun kx ky (centerDX centerX p) (centerDY centerY p) s).isMoving
          = false := by
  have hstep : (0 : ℝ) < stepAngle := by norm_num [stepAngle]
  -- the chosen step signs, re-expressed through the driven coordinates
  have hsx : centerDX centerX p = if p.x - centerX < 0 then stepAngle else -stepAngle := by
    unfold centerDX
    by_cases h : p.x < centerX
    · rw [if_pos h, if_pos (sub_neg.mpr h)]
    · rw [if_neg h, if_neg (fun hcon => h (sub_neg.mp hcon))]
  obtain ⟨kx, hkx63, hkxmin, hkxstop, hkxbound, hkxzero⟩ :=
    crossing_lemma (p.x - centerX) p.z (centerDX centerX p) hsx
  have hcontX : ∀ j, contX centerX (centerDX centerX p)
      ((xPhaseStep (centerDX centerX p) centerX centerY)^[j] p)
        ↔ contGen (centerDX centerX p)
            (((rot2 (centerDX centerX p))^[j] (p.x - centerX, p.z)).1) := by
    intro j
    unfold contX contGen
    rw [(xPhase_iterate (centerDX centerX p) centerX centerY p j).1]
  have hpx := (xPhase_iterate (centerDX centerX p) centerX centerY p kx).1
  have hpz := (xPhase_iterate (centerDX centerX p) centerX centerY p kx).2.1
  have hpy := (xPhase_iterate (centerDX centerX p) centerX centerY p kx).2.2
  -- the x-phase endpoint
  set px := (xPhaseStep (centerDX centerX p) centerX centerY)^[kx] p with hpxdef
  -- the squared norm of the rotated pair is preserved through the x phase
  have hxznorm : (px.x - centerX) ^ 2 + px.z ^ 2 = (p.x - centerX) ^ 2 + p.z ^ 2 := by
    rw [hpx, hpz]
    exact rot2_iterate_normSq (centerDX centerX p) (p.x - centerX) p.z kx
  have hsy : centerDY centerY p = if -px.y + centerY < 0 then stepAngle else -stepAngle := by
    unfold centerDY
    rw [hpy]
    by_cases h : p.y > centerY
    · rw [if_pos h, if_pos (by linarith)]
    · rw [if_neg h, if_neg (by intro hcon; exact h (by linarith))]
  obtain ⟨ky, hky63, hkymin, hkystop, hkybound, hkyzero⟩ :=
    crossing_lemma (-px.y + centerY) px.z (centerDY centerY p) hsy
  have hcontY : ∀ j, contY centerY (centerDY centerY p)
      ((yPhaseStep (centerDY centerY p) centerX centerY)^[j] px)
        ↔ contGen (centerDY centerY p)
            (((rot2 (centerDY centerY p))^[j] (-px.y + centerY, px.z)).1) := by
    intro j
    unfold contY contGen
    rw [(yPhase_iterate (centerDY centerY p) centerX centerY px j).1]
  have hfy := (yPhase_iterate (centerDY centerY p) centerX centerY px ky).1
  have hfx := (yPhase_iterate (centerDY centerY p) centerX centerY px ky).2.2
  -- bound transfer for the radicands
  have hsqrtx : Real.sqrt ((p.x - centerX) ^ 2 + p.z ^ 2)
      ≤ Real.sqrt (normSq centerX centerY p) := by
    apply Real.sqrt_le_sqrt
    unfold normSq
    nlinarith [sq_nonneg (p.y - centerY)]
  have hsqrty : Real.sqrt ((-px.y + centerY) ^ 2 + px.z ^ 2)
      ≤ Real.sqrt (normSq centerX centerY p) := by
    apply Real.sqrt_le_sqrt
    unfold normSq
    have hyeq : (-px.y + centerY) ^ 2 = (p.y - centerY) ^ 2 := by
      rw [hpy]
      ring
    nlinarith [sq_nonneg (px.x - centerX), hxznorm, hyeq]
  refine ⟨kx, ky, hkx63, hky63,
    fun j hj => (hcontX j).mpr (hkxmin j hj),
    fun hcon => absurd ((hcontX kx).mp hcon) hkxstop,
    fun j hj => (hcontY j).mpr (hkymin j hj),
    fun hcon => absurd ((hcontY ky).mp hcon) hkystop,
    ?_, ?_, ?_, ?_, rfl⟩
  · -- final x bound: the y phase leaves x untouched
    rw [hfx, hpx]
    calc |((rot2 (centerDX centerX p))^[kx] (p.x - centerX, p.z)).1|
        ≤ stepAngle * Real.sqrt ((p.x - centerX) ^ 2 + p.z ^ 2) := hkxbound
      _ ≤ stepAngle * Real.sqrt (normSq centerX centerY p) :=
          mul_le_mul_of_nonneg_left hsqrtx hstep.le
  · -- final y bound
    have habs : |((yPhaseStep (centerDY centerY p) centerX centerY)^[ky] px).y - centerY|
        = |-((yPhaseStep (centerDY centerY p) centerX centerY)^[ky] px).y + centerY| := by
      rw [show -((yPhaseStep (centerDY centerY p) centerX centerY)^[ky] px).y + centerY
          = -(((yPhaseStep (centerDY centerY p) centerX centerY)^[ky] px).y - centerY)
          by ring, abs_neg]
    rw [habs, hfy]
    calc |((rot2 (centerDY centerY p))^[ky] (-px.y + centerY, px.z)).1|
        ≤ stepAngle * Real.sqrt ((-px.y + centerY) ^ 2 + px.z ^ 2) := hkybound
      _ ≤ stepAngle * Real.sqrt (normSq centerX centerY p) :=
          mul_le_mul_of_nonneg_left hsqrty hstep.le
  · intro h
    exact hkxzero (by rw [h]; ring)
  · intro h
    exact hkyzero (by rw [hpy, h]; ring)

end

end SkySphere
